import Mathlib

/-!
Verification development for the TruckersMP-to-Discord event mirror
(`src/main.rs`, `src/tmp_response.rs`).  Strings are modelled as `List Char`;
byte positions follow UTF-8 via `Char.utf8Size`, matching Rust's `str`
byte-length and char-boundary semantics.  Machine-integer subtraction that can
underflow is modelled as an `Option`-valued operation (`none` = arithmetic
underflow, a program error in Rust).  Network effects are modelled as explicit
oracle parameters.
-/

namespace TmpEvents

/-- Byte length of a character sequence under UTF-8, as Rust `String::len`. -/
def byteLen : List Char → Nat
  | [] => 0
  | c :: rest => c.utf8Size + byteLen rest

/-- Models Rust `str::is_char_boundary`: byte index 0 is always a boundary,
an index past the end is not, and otherwise the index must fall exactly
between encoded characters. -/
def isCharBoundary : List Char → Nat → Bool
  | _, 0 => true
  | [], _ + 1 => false
  | c :: rest, i + 1 =>
    if c.utf8Size ≤ i + 1 then isCharBoundary rest (i + 1 - c.utf8Size) else false

/-- Models the boundary-search loop at `src/main.rs` lines 85-87:
`while !desc.is_char_boundary(truncate_at) { truncate_at -= 1; }`. -/
def findBoundary (s : List Char) : Nat → Nat
  | 0 => 0
  | i + 1 => if isCharBoundary s (i + 1) then i + 1 else findBoundary s i

/-- Models Rust `String::truncate` at a byte index (`src/main.rs` line 88):
keeps the characters that fit entirely within the first `i` bytes; a no-op
when `i` is at least the byte length. -/
def truncateList : List Char → Nat → List Char
  | [], _ => []
  | c :: rest, i => if c.utf8Size ≤ i then c :: truncateList rest (i - c.utf8Size) else []

/-- Models Rust `usize` subtraction, which is a program error (debug-mode
panic) on underflow, as in `1000 - desc_prefix.len() - desc_suffix.len()`
at `src/main.rs` line 84. -/
def usizeSub (a b : Nat) : Option Nat :=
  if b ≤ a then some (a - b) else none

/-- Models `String::replace` of the carriage-return character with the empty
string (`src/main.rs` line 81). -/
def removeCR : List Char → List Char
  | [] => []
  | c :: rest => if c = '\r' then removeCR rest else c :: removeCR rest

/-- Scans for the first occurrence of a terminator character, returning the
remainder after it; used to model the character classes in the markdown-image
regex, which cannot cross their closing delimiter. -/
def scanUntil (t : Char) : List Char → Option (List Char)
  | [] => none
  | c :: rest => if c = t then some rest else scanUntil t rest

/-- Models a match of the markdown-image regex `MARKDOWN_IMAGE_REGEX`
(`src/main.rs` line 28) anchored at the head of the input, under the regex
crate's leftmost-first semantics: a literal exclamation mark, then an optional
bracketed alt-text group (any characters other than a closing bracket), then a
parenthesised URL group (any characters other than a closing parenthesis).
Returns the remainder after the match, or `none` when no match starts here. -/
def matchImage : List Char → Option (List Char)
  | '!' :: '[' :: rest =>
    match scanUntil ']' rest with
    | some ('(' :: r2) => scanUntil ')' r2
    | _ => none
  | '!' :: '(' :: rest => scanUntil ')' rest
  | _ => none

/-- Fuelled left-to-right scan implementing `Regex::replace_all` with an empty
replacement (`src/main.rs` line 82): at each position, remove a match if one
starts there and resume after it, otherwise keep the character.  The fuel is
the input length, which always suffices because every step consumes at least
one character. -/
def stripImagesAux : Nat → List Char → List Char
  | 0, s => s
  | _ + 1, [] => []
  | fuel + 1, c :: rest =>
    match matchImage (c :: rest) with
    | some rem => stripImagesAux fuel rem
    | none => c :: stripImagesAux fuel rest

/-- Removal of every markdown image reference, as `re.replace_all(&desc, "")`
at `src/main.rs` line 82. -/
def stripImages (s : List Char) : List Char :=
  stripImagesAux s.length s

/-- Whether a markdown-image match starts at any position of the input. -/
def hasImage : List Char → Bool
  | [] => false
  | c :: rest => (matchImage (c :: rest)).isSome || hasImage rest

/-- The dedup marker for a source-event id, the string rendered by
`format!` from `### `, the decimal id and ` ###` (`src/main.rs` line 51). -/
def markerChars (id : Nat) : List Char :=
  ("### " ++ Nat.repr id ++ " ###").data

/-- Whether the second sequence is an initial segment of the first. -/
def startsWith : List Char → List Char → Bool
  | _, [] => true
  | [], _ :: _ => false
  | a :: as, b :: bs => (a = b) && startsWith as bs

/-- Models Rust `str::contains` with a string pattern: the needle occurs as a
contiguous subsequence of the haystack.  The markers searched for are pure
ASCII, so byte-level containment and character-level containment coincide. -/
def containsSeq : List Char → List Char → Bool
  | [], needle => needle.isEmpty
  | a :: as, needle => startsWith (a :: as) needle || containsSeq as needle

/-- Models the inner loop of the reconciler (`src/main.rs` lines 49-56): walk
the existing target-server events (here, their optional description fields) and
stop at the first whose present description contains the marker. -/
def scanExisting : List (Option (List Char)) → List Char → Bool
  | [], _ => false
  | d :: rest, m =>
    match d with
    | some desc => if containsSeq desc m then true else scanExisting rest m
    | none => scanExisting rest m

/-- Departure location of a source event (`src/tmp_response.rs`). -/
structure Location where
  city : List Char
deriving DecidableEq

/-- One source event as deserialised from the TruckersMP API
(`src/tmp_response.rs`, struct `EventIndex`). -/
structure EventIndex where
  id : Nat
  name : List Char
  departure : Location
  start_at : List Char
  banner : Option (List Char)
  description : List Char
  url : List Char
deriving DecidableEq

/-- Models the outer reconciler loop (`src/main.rs` lines 47-59): a candidate
is kept as new exactly when no existing event's description contains its
marker. -/
def computeNewEvents (data : List EventIndex)
    (existing : List (Option (List Char))) : List EventIndex :=
  data.filter (fun ev => !scanExisting existing (markerChars ev.id))

/-- Value of a decimal digit character, `none` for non-digits. -/
def digitVal (c : Char) : Option Nat :=
  if c.isDigit then some (c.toNat - 48) else none

/-- Reads exactly `n` decimal digits, returning their value and the rest. -/
def parseNDigits : Nat → List Char → Option (Nat × List Char)
  | 0, s => some (0, s)
  | _ + 1, [] => none
  | n + 1, c :: rest => do
    let d ← digitVal c
    let (v, r) ← parseNDigits n rest
    pure (d * 10 ^ n + v, r)

/-- Consumes one expected literal character. -/
def expectChar (t : Char) : List Char → Option (List Char)
  | [] => none
  | c :: rest => if c = t then some rest else none

/-- Gregorian leap-year rule. -/
def isLeap (y : Int) : Bool :=
  (y % 4 == 0 && y % 100 != 0) || y % 400 == 0

/-- Number of days in a month, accounting for leap years. -/
def daysInMonth (y : Int) (m : Nat) : Nat :=
  if m = 2 then (if isLeap y then 29 else 28)
  else if m = 4 ∨ m = 6 ∨ m = 9 ∨ m = 11 then 30
  else 31

/-- Days from the civil epoch 1970-01-01 to year/month/day (standard
days-from-civil computation over the proleptic Gregorian calendar). -/
def daysFromCivil (y : Int) (m : Nat) (d : Nat) : Int :=
  let y2 : Int := if m ≤ 2 then y - 1 else y
  let era : Int := (if 0 ≤ y2 then y2 else y2 - 399) / 400
  let yoe : Int := y2 - era * 400
  let mp : Int := ((m : Int) + 9) % 12
  let doy : Int := (153 * mp + 2) / 5 + (d : Int) - 1
  let doe : Int := yoe * 365 + yoe / 4 - yoe / 100 + doy
  era * 146097 + doe - 719468

/-- Models `NaiveDateTime::parse_from_str(s, "%Y-%m-%d %H:%M:%S")`
(`src/main.rs` lines 65-67): a four-digit year, two-digit month, day, hour,
minute and second with literal separators, the whole input consumed, and all
fields validated against calendar ranges.  The parsed naive timestamp is
represented as seconds since the epoch. -/
def parseStart (s : List Char) : Option Int := do
  let (y, r1) ← parseNDigits 4 s
  let r2 ← expectChar '-' r1
  let (mo, r3) ← parseNDigits 2 r2
  let r4 ← expectChar '-' r3
  let (d, r5) ← parseNDigits 2 r4
  let r6 ← expectChar ' ' r5
  let (h, r7) ← parseNDigits 2 r6
  let r8 ← expectChar ':' r7
  let (mi, r9) ← parseNDigits 2 r8
  let r10 ← expectChar ':' r9
  let (sec, r11) ← parseNDigits 2 r10
  if !r11.isEmpty then none
  else if mo < 1 ∨ 12 < mo then none
  else if d < 1 ∨ daysInMonth (Int.ofNat y) mo < d then none
  else if 23 < h ∨ 59 < mi ∨ 59 < sec then none
  else some (daysFromCivil (Int.ofNat y) mo d * 86400
    + (h : Int) * 3600 + (mi : Int) * 60 + (sec : Int))

/-- The fixed base URL `TMP_BASE_URL` (`src/main.rs` line 25). -/
def tmpBaseUrl : List Char := ("https://truckersmp.com").data

/-- The description prefix built at `src/main.rs` line 77:
a markdown link to the original event. -/
def descPre (ev : EventIndex) : List Char :=
  ("[See on TruckersMP](").data ++ tmpBaseUrl ++ ev.url ++ (")\n\n").data

/-- The description suffix built at `src/main.rs` line 79: two newlines
followed by the dedup marker for the event id. -/
def descSuf (ev : EventIndex) : List Char :=
  ("\n\n").data ++ markerChars ev.id

/-- The scheduled-event type; the program always uses the external kind
(`src/main.rs` line 91). -/
inductive ScheduledEventType where
  | external
deriving DecidableEq

/-- The event-creation payload assembled for the target platform
(`CreateScheduledEvent`, `src/main.rs` lines 90-104). -/
structure Payload where
  kind : ScheduledEventType
  name : List Char
  startTime : Int
  endTime : Int
  description : List Char
  location : List Char
  image : Option (List Char)
  auditLogReason : List Char
deriving DecidableEq

/-- The truncation cut point `1000 - desc_prefix.len() - desc_suffix.len()`
(`src/main.rs` line 84), with `usize` underflow modelled as failure.  The
subtraction associates to the left as in Rust. -/
def rawCut (ev : EventIndex) : Option Nat :=
  match usizeSub 1000 (byteLen (descPre ev)) with
  | none => none
  | some t => usizeSub t (byteLen (descSuf ev))

/-- Models the formatter (`src/main.rs` lines 75-104) for one accepted
candidate: sanitise the description (strip carriage returns, then markdown
images), truncate the body at the largest character boundary not beyond the
cut point, assemble prefix + body + suffix, and build the payload.  The
`fetch` oracle models `CreateAttachment::url`: `none` means the banner
download failed, in which case no image is attached. -/
def formatEvent (ev : EventIndex) (startTime : Int)
    (fetch : List Char → Option (List Char)) : Option Payload :=
  match rawCut ev with
  | none => none
  | some cut =>
    let body := stripImages (removeCR ev.description)
    let body2 := truncateList body (findBoundary body cut)
    some {
      kind := ScheduledEventType.external
      name := ev.name
      startTime := startTime
      endTime := startTime + 3600
      description := descPre ev ++ body2 ++ descSuf ev
      location := ev.departure.city
      image := ev.banner.bind fetch
      auditLogReason := ("Created from TruckersMP event").data
    }

/-- Models the publishing loop (`src/main.rs` lines 64-111) over the already
reconciled new events: parse each start time falling back to the current local
wall-clock time (`now + tzOff`, where `tzOff` is the deployment host's UTC
offset in seconds), skip candidates not strictly in the future of `now`
(the current UTC instant), and otherwise format and publish.  `none` models a
run aborted by a formatter error. -/
def publishNew (now tzOff : Int) (fetch : List Char → Option (List Char)) :
    List EventIndex → Option (List Payload)
  | [] => some []
  | ev :: rest =>
    let startTime := (parseStart ev.start_at).getD (now + tzOff)
    if startTime ≤ now then publishNew now tzOff fetch rest
    else
      match formatEvent ev startTime fetch with
      | none => none
      | some p =>
        match publishNew now tzOff fetch rest with
        | none => none
        | some ps => some (p :: ps)

/-- Models `Handler::process_events` (`src/main.rs` lines 35-114): reconcile
the candidates against the existing target-server event descriptions, then
format and publish the accepted ones in order. -/
def processEvents (data : List EventIndex)
    (existing : List (Option (List Char))) (now tzOff : Int)
    (fetch : List Char → Option (List Char)) : Option (List Payload) :=
  publishNew now tzOff fetch (computeNewEvents data existing)

/-- The effective start instant of a candidate in the publishing loop
(`src/main.rs` lines 65-67): the parsed start, or the current local wall-clock
time when parsing fails. -/
def effStart (now tzOff : Int) (ev : EventIndex) : Int :=
  (parseStart ev.start_at).getD (now + tzOff)

/-- The candidates the publishing loop does not skip as past
(`src/main.rs` lines 69-73): those whose effective start is strictly after
the current instant, in input order. -/
def acceptedEvents (now tzOff : Int) (evs : List EventIndex) : List EventIndex :=
  evs.filter (fun ev => !decide (effStart now tzOff ev ≤ now))

/-- Models `Vec::append` (`src/main.rs` line 177): move every element of the
source vector, in order, onto the end of the destination. -/
def vecAppend (dst src : List EventIndex) : List EventIndex :=
  src.foldl (fun acc x => acc ++ [x]) dst

/-- Models the merge step of `main` (`src/main.rs` lines 173-178): the created
events followed by the appended attending events. -/
def mergeEvents (created attending : List EventIndex) : List EventIndex :=
  vecAppend created attending

/-- Forgets the attached image of a payload; used to state that everything
except the cover image is independent of the banner download outcome. -/
def eraseImage (p : Payload) : Payload :=
  { p with image := none }

/-- Concrete candidate whose marker is present on the server in tests. -/
def evW1 : EventIndex :=
  { id := 7, name := ("w1").data, departure := { city := ("c").data },
    start_at := ("2100-01-01 00:00:00").data, banner := none,
    description := ("d").data, url := ("/a").data }

/-- Concrete candidate with a short description and URL. -/
def evW2 : EventIndex :=
  { id := 5, name := ("w2").data, departure := { city := ("c").data },
    start_at := ("2100-01-01 00:00:00").data, banner := none,
    description := ("hello").data, url := ("/e").data }

/-- Concrete candidate with an unparsable start timestamp. -/
def evW3 : EventIndex :=
  { id := 3, name := ("w3").data, departure := { city := ("c").data },
    start_at := ("soon").data, banner := none,
    description := ("hi").data, url := ("/u").data }

/-- Concrete candidate with a well-formed past start timestamp. -/
def evW5 : EventIndex :=
  { id := 4, name := ("w5").data, departure := { city := ("c").data },
    start_at := ("2020-01-01 00:00:00").data, banner := none,
    description := ("hi").data, url := ("/u").data }

/-- Concrete candidate with a well-formed future start timestamp. -/
def evW6 : EventIndex :=
  { id := 6, name := ("w6").data, departure := { city := ("c").data },
    start_at := ("2100-01-01 00:00:00").data, banner := none,
    description := ("hi").data, url := ("/u").data }

/-- Concrete candidate carrying a banner URL. -/
def evW8 : EventIndex :=
  { id := 8, name := ("w8").data, departure := { city := ("c").data },
    start_at := ("2100-01-01 00:00:00").data, banner := some (("/b").data),
    description := ("hi").data, url := ("/u").data }

/-- Concrete candidate with prefix and suffix well under the length limit. -/
def evW9s : EventIndex :=
  { id := 9, name := ("w9").data, departure := { city := ("c").data },
    start_at := ("2100-01-01 00:00:00").data, banner := none,
    description := ("hi").data, url := ("/u").data }

/-- Concrete candidate whose URL alone pushes the description prefix past
1000 bytes, making the cut-point subtraction underflow. -/
def evW9b : EventIndex :=
  { id := 10, name := ("w9b").data, departure := { city := ("c").data },
    start_at := ("2100-01-01 00:00:00").data, banner := none,
    description := ("hi").data, url := List.replicate 956 'a' }

/-- Concrete candidate whose computed truncation cut point falls inside the
two-byte character at the end of its description body: the prefix occupies
979 bytes, the suffix 11, so the cut point is 10, which is strictly inside
the final two-byte character starting at byte 9 of the 12-byte body. -/
def evC2x : EventIndex :=
  { id := 1, name := [], departure := { city := [] },
    start_at := ("2100-01-01 00:00:00").data, banner := none,
    description := List.replicate 9 'a' ++ ['é', 'a'],
    url := List.replicate 934 'a' }

/-- Concrete candidate with an unparsable start timestamp, used to exercise
the fallback under a positive local UTC offset. -/
def evC3x : EventIndex :=
  { id := 2, name := ("n").data, departure := { city := ("c").data },
    start_at := ("never").data, banner := none,
    description := ("hi").data, url := ("/u").data }

/-- Byte length distributes over concatenation. -/
theorem byteLen_append (a b : List Char) :
    byteLen (a ++ b) = byteLen a + byteLen b := by
  induction a with
  | nil => simp [byteLen]
  | cons c rest ih => simp [byteLen, ih]; omega

/-- Byte index 0 is a character boundary of every string. -/
theorem isCharBoundary_zero (s : List Char) : isCharBoundary s 0 = true := by
  cases s <;> rfl

/-- The boundary search never moves the cut point forward. -/
theorem findBoundary_le (s : List Char) (i : Nat) : findBoundary s i ≤ i := by
  induction i with
  | zero => simp [findBoundary]
  | succ n ih =>
    simp only [findBoundary]
    split
    · exact Nat.le_refl _
    · exact Nat.le_trans ih (Nat.le_succ n)

/-- The boundary search lands on a character boundary. -/
theorem findBoundary_isBoundary (s : List Char) (i : Nat) :
    isCharBoundary s (findBoundary s i) = true := by
  induction i with
  | zero => simpa [findBoundary] using isCharBoundary_zero s
  | succ n ih =>
    simp only [findBoundary]
    split
    · assumption
    · exact ih

/-- The boundary search is the identity on character boundaries. -/
theorem findBoundary_of_boundary (s : List Char) (i : Nat)
    (h : isCharBoundary s i = true) : findBoundary s i = i := by
  cases i with
  | zero => rfl
  | succ n => simp [findBoundary, h]

/-- Truncation never keeps more bytes than the budget. -/
theorem byteLen_truncate_le (s : List Char) (i : Nat) :
    byteLen (truncateList s i) ≤ i := by
  induction s generalizing i with
  | nil => simp [truncateList, byteLen]
  | cons c rest ih =>
    simp only [truncateList]
    split
    · have := ih (i - c.utf8Size)
      simp only [byteLen]
      omega
    · simp [byteLen]

/-- Truncating at a character boundary within the string keeps exactly the
requested number of bytes. -/
theorem byteLen_truncate_eq (s : List Char) (i : Nat)
    (hb : isCharBoundary s i = true) (hle : i ≤ byteLen s) :
    byteLen (truncateList s i) = i := by
  induction s generalizing i with
  | nil =>
    simp only [byteLen] at hle
    have hi : i = 0 := Nat.le_zero.mp hle
    subst hi
    rfl
  | cons c rest ih =>
    cases i with
    | zero =>
      have hc : (0 : Nat) < c.utf8Size := Char.utf8Size_pos c
      simp only [truncateList]
      rw [if_neg (by omega)]
      rfl
    | succ n =>
      simp only [isCharBoundary] at hb
      by_cases hsz : c.utf8Size ≤ n + 1
      · rw [if_pos hsz] at hb
        simp only [byteLen] at hle
        simp only [truncateList, if_pos hsz, byteLen]
        have := ih (n + 1 - c.utf8Size) hb (by omega)
        omega
      · rw [if_neg hsz] at hb
        exact absurd hb (by simp)

/-- A string in which no markdown-image match starts anywhere is left
unchanged by the replacement scan, for every fuel value. -/
theorem stripImagesAux_no_image (fuel : Nat) :
    ∀ s : List Char, hasImage s = false → stripImagesAux fuel s = s := by
  induction fuel with
  | zero => intro s _; rfl
  | succ n ih =>
    intro s h
    cases s with
    | nil => rfl
    | cons c rest =>
      simp only [hasImage, Bool.or_eq_false_iff] at h
      obtain ⟨h1, h2⟩ := h
      cases hm : matchImage (c :: rest) with
      | some rem => rw [hm] at h1; simp at h1
      | none => simp only [stripImagesAux, hm]; rw [ih rest h2]

/-- The short-circuiting marker scan succeeds exactly when some present
description contains the marker. -/
theorem scanExisting_iff (E : List (Option (List Char))) (m : List Char) :
    scanExisting E m = true ↔
      ∃ desc, (some desc) ∈ E ∧ containsSeq desc m = true := by
  induction E with
  | nil =>
    simp [scanExisting]
  | cons d rest ih =>
    cases d with
    | none =>
      simp only [scanExisting, ih]
      constructor
      · rintro ⟨desc, hmem, hc⟩
        exact ⟨desc, List.mem_cons_of_mem _ hmem, hc⟩
      · rintro ⟨desc, hmem, hc⟩
        rcases List.mem_cons.mp hmem with h | h
        · exact absurd h (by simp)
        · exact ⟨desc, h, hc⟩
    | some desc0 =>
      simp only [scanExisting]
      by_cases hc0 : containsSeq desc0 m = true
      · simp only [if_pos hc0, true_iff]
        exact ⟨desc0, List.mem_cons_self _ _, hc0⟩
      · rw [if_neg hc0, ih]
        constructor
        · rintro ⟨desc, hmem, hc⟩
          exact ⟨desc, List.mem_cons_of_mem _ hmem, hc⟩
        · rintro ⟨desc, hmem, hc⟩
          rcases List.mem_cons.mp hmem with h | h
          · cases Option.some.inj h; exact absurd hc hc0
          · exact ⟨desc, h, hc⟩

/-- Membership in the reconciled new-event list. -/
theorem mem_computeNewEvents (data : List EventIndex)
    (E : List (Option (List Char))) (ev : EventIndex) :
    ev ∈ computeNewEvents data E ↔
      ev ∈ data ∧ scanExisting E (markerChars ev.id) = false := by
  simp only [computeNewEvents, List.mem_filter, Bool.not_eq_true']

/-- Machine subtraction succeeds without underflow. -/
theorem usizeSub_of_le (a b : Nat) (h : b ≤ a) : usizeSub a b = some (a - b) := by
  unfold usizeSub
  rw [if_pos h]

/-- Machine subtraction underflows. -/
theorem usizeSub_of_gt (a b : Nat) (h : a < b) : usizeSub a b = none := by
  unfold usizeSub
  rw [if_neg (by omega)]

/-- When prefix plus suffix fit in the limit, the cut-point computation
succeeds with the exact remaining budget. -/
theorem rawCut_of_le (ev : EventIndex)
    (h : byteLen (descPre ev) + byteLen (descSuf ev) ≤ 1000) :
    rawCut ev =
      some (1000 - byteLen (descPre ev) - byteLen (descSuf ev)) := by
  simp only [rawCut, usizeSub_of_le 1000 (byteLen (descPre ev)) (by omega)]
  exact usizeSub_of_le _ _ (by omega)

/-- When prefix plus suffix exceed the limit, the cut-point computation
underflows. -/
theorem rawCut_of_gt (ev : EventIndex)
    (h : 1000 < byteLen (descPre ev) + byteLen (descSuf ev)) :
    rawCut ev = none := by
  by_cases h1 : byteLen (descPre ev) ≤ 1000
  · simp only [rawCut, usizeSub_of_le 1000 (byteLen (descPre ev)) h1]
    exact usizeSub_of_gt _ _ (by omega)
  · simp only [rawCut, usizeSub_of_gt 1000 (byteLen (descPre ev)) (by omega)]

/-- Explicit form of the formatter's output when the cut-point computation
succeeds. -/
theorem formatEvent_of_cut (ev : EventIndex) (st : Int)
    (fetch : List Char → Option (List Char)) (cut : Nat)
    (h : rawCut ev = some cut) :
    formatEvent ev st fetch = some {
      kind := ScheduledEventType.external
      name := ev.name
      startTime := st
      endTime := st + 3600
      description := descPre ev ++
        truncateList (stripImages (removeCR ev.description))
          (findBoundary (stripImages (removeCR ev.description)) cut) ++ descSuf ev
      location := ev.departure.city
      image := ev.banner.bind fetch
      auditLogReason := ("Created from TruckersMP event").data } := by
  simp [formatEvent, h]

/-- The formatter fails exactly when the cut-point computation does. -/
theorem formatEvent_none (ev : EventIndex) (st : Int)
    (fetch : List Char → Option (List Char)) (h : rawCut ev = none) :
    formatEvent ev st fetch = none := by
  simp [formatEvent, h]

/-- Every payload the formatter produces ends in the dedup marker of its
source event. -/
theorem formatEvent_marker (ev : EventIndex) (st : Int)
    (fetch : List Char → Option (List Char)) (p : Payload)
    (h : formatEvent ev st fetch = some p) :
    ∃ t, p.description = t ++ markerChars ev.id := by
  cases hc : rawCut ev with
  | none =>
    rw [formatEvent_none ev st fetch hc] at h
    exact absurd h (by simp)
  | some cut =>
    rw [formatEvent_of_cut ev st fetch cut hc] at h
    cases Option.some.inj h
    refine ⟨descPre ev ++
      truncateList (stripImages (removeCR ev.description))
        (findBoundary (stripImages (removeCR ev.description)) cut) ++
      ("\n\n").data, ?_⟩
    simp [descSuf, List.append_assoc]

/-- The publishing loop's output corresponds one-to-one and in order with the
accepted (non-past) candidates of its input, each payload being exactly the
formatter's output for its own candidate. -/
theorem publishNew_forall2 (now tzOff : Int)
    (fetch : List Char → Option (List Char)) :
    ∀ (evs : List EventIndex) (out : List Payload),
      publishNew now tzOff fetch evs = some out →
      List.Forall₂ (fun ev p => formatEvent ev (effStart now tzOff ev) fetch = some p)
        (acceptedEvents now tzOff evs) out := by
  intro evs
  induction evs with
  | nil =>
    intro out h
    simp only [publishNew, Option.some.injEq] at h
    subst h
    exact List.Forall₂.nil
  | cons ev rest ih =>
    intro out h
    simp only [publishNew] at h
    split at h
    · next hle =>
      have hacc : acceptedEvents now tzOff (ev :: rest) = acceptedEvents now tzOff rest := by
        simp [acceptedEvents, List.filter_cons, effStart, decide_eq_true hle]
      rw [hacc]
      exact ih out h
    · next hle =>
      have hacc : acceptedEvents now tzOff (ev :: rest)
          = ev :: acceptedEvents now tzOff rest := by
        simp [acceptedEvents, List.filter_cons, effStart, decide_eq_false hle]
      rw [hacc]
      split at h
      · exact absurd h (by simp)
      · next p0 hf =>
        split at h
        · exact absurd h (by simp)
        · next ps hrest =>
          have hout : p0 :: ps = out := Option.some.inj h
          subst hout
          exact List.Forall₂.cons hf (ih ps hrest)

/-- Folding element-pushes onto a destination list concatenates. -/
theorem foldl_push (src dst : List EventIndex) :
    src.foldl (fun acc x => acc ++ [x]) dst = dst ++ src := by
  induction src generalizing dst with
  | nil => simp
  | cons a as ih => simp [List.foldl_cons, ih]

/-- Unfolding equation for the publishing loop on a non-empty list. -/
theorem publishNew_cons (now tzOff : Int)
    (fetch : List Char → Option (List Char)) (ev : EventIndex)
    (rest : List EventIndex) :
    publishNew now tzOff fetch (ev :: rest) =
      if (parseStart ev.start_at).getD (now + tzOff) ≤ now then
        publishNew now tzOff fetch rest
      else
        match formatEvent ev ((parseStart ev.start_at).getD (now + tzOff)) fetch with
        | none => none
        | some p =>
          match publishNew now tzOff fetch rest with
          | none => none
          | some ps => some (p :: ps) := rfl

/-- The reconciler keeps a lone unmirrored candidate and drops a mirrored
one. -/
theorem computeNewEvents_singleton (ev : EventIndex)
    (E : List (Option (List Char))) :
    computeNewEvents [ev] E = [] ∨ computeNewEvents [ev] E = [ev] := by
  by_cases hs : scanExisting E (markerChars ev.id) = true
  · left
    simp [computeNewEvents, List.filter_cons, hs]
  · right
    simp [computeNewEvents, List.filter_cons, Bool.eq_false_iff.mpr hs]

/-- C1: for every list of existing target-server events and every candidate,
the candidate is excluded from the new-event list (skipped) exactly when some
existing event's present description contains the literal marker for its id;
otherwise it remains a creation candidate.  The scan itself short-circuits:
a first matching description decides the answer regardless of the rest. -/
theorem c1_reconciler_skip_iff (data : List EventIndex)
    (E : List (Option (List Char))) (ev : EventIndex) :
    (ev ∈ computeNewEvents data E ↔
      ev ∈ data ∧
        ¬ ∃ desc, (some desc) ∈ E ∧
          containsSeq desc (markerChars ev.id) = true)
    ∧ ∀ desc rest, containsSeq desc (markerChars ev.id) = true →
        scanExisting (some desc :: rest) (markerChars ev.id) = true := by
  constructor
  · rw [mem_computeNewEvents]
    have hiff := scanExisting_iff E (markerChars ev.id)
    constructor
    · rintro ⟨h1, h2⟩
      exact ⟨h1, fun hex => by simp [hiff.mpr hex] at h2⟩
    · rintro ⟨h1, h2⟩
      refine ⟨h1, ?_⟩
      cases hsc : scanExisting E (markerChars ev.id) with
      | false => rfl
      | true => exact absurd (hiff.mp hsc) h2
  · intro desc rest hc
    simp [scanExisting, hc]

/-- Witness for C1: a candidate whose marker appears in the only existing
description is skipped. -/
theorem c1_reconciler_skip_iff_witness :
    ¬ evW1 ∈ computeNewEvents [evW1] [some (markerChars 7)] := by
  intro hmem
  exact ((c1_reconciler_skip_iff [evW1] [some (markerChars 7)] evW1).1.mp hmem).2
    ⟨markerChars 7, List.mem_singleton.mpr rfl, by decide⟩

/-- C10: an existing event with an absent description never causes a skip:
the marker scan is determined entirely by the present descriptions. -/
theorem c10_absent_description (E : List (Option (List Char))) (m : List Char) :
    scanExisting E m =
      (E.filterMap (fun d => d)).any (fun desc => containsSeq desc m) := by
  induction E with
  | nil => rfl
  | cons d rest ih =>
    cases d with
    | none => simpa [scanExisting, List.filterMap_cons] using ih
    | some desc0 =>
      simp only [scanExisting, List.filterMap_cons, List.any_cons]
      by_cases hc : containsSeq desc0 m = true
      · simp [hc]
      · have hc' : containsSeq desc0 m = false := Bool.eq_false_iff.mpr hc
        simp [hc', ih]

/-- C7: the merge of the created and attending event lists is exactly their
concatenation, created events first, order preserved within each source, no
deduplication; in particular merging two two-element lists yields the four
elements in order. -/
theorem c7_merge_concat :
    (∀ created attending : List EventIndex,
      mergeEvents created attending = created ++ attending)
    ∧ ∀ a b c d : EventIndex, mergeEvents [a, b] [c, d] = [a, b, c, d] := by
  have hgen : ∀ created attending : List EventIndex,
      mergeEvents created attending = created ++ attending := by
    intro created attending
    unfold mergeEvents vecAppend
    exact foldl_push attending created
  exact ⟨hgen, fun a b c d => by rw [hgen]; rfl⟩

/-- C5: a candidate whose parsed start instant is not strictly after the
current time is skipped as past: no creation call is issued and no error is
raised. -/
theorem c5_past_skip (ev : EventIndex) (E : List (Option (List Char)))
    (now tzOff : Int) (fetch : List Char → Option (List Char)) (t : Int)
    (hp : parseStart ev.start_at = some t) (hle : t ≤ now) :
    (∀ rest : List EventIndex,
      publishNew now tzOff fetch (ev :: rest) = publishNew now tzOff fetch rest)
    ∧ processEvents [ev] E now tzOff fetch = some [] := by
  have hskip : (parseStart ev.start_at).getD (now + tzOff) ≤ now := by
    rw [hp]; exact hle
  have hdrop : ∀ rest : List EventIndex,
      publishNew now tzOff fetch (ev :: rest) = publishNew now tzOff fetch rest := by
    intro rest
    rw [publishNew_cons, if_pos hskip]
  refine ⟨hdrop, ?_⟩
  show publishNew now tzOff fetch (computeNewEvents [ev] E) = some []
  rcases computeNewEvents_singleton ev E with h | h
  · rw [h]
    rfl
  · rw [h, hdrop]
    rfl

/-- Witness for C5: one well-formed past event yields zero creations and no
error. -/
theorem c5_past_skip_witness :
    processEvents [evW5] [] 1600000000 0 (fun _ => none) = some [] :=
  (c5_past_skip evW5 [] 1600000000 0 (fun _ => none) 1577836800
    (by decide) (by decide)).2

/-- C3 (amended): an unparsable start timestamp never propagates a parse
error; the start falls back to the current local wall-clock time, so whenever
the deployment host's UTC offset is not positive the candidate is classified
as past and skipped.  (With a positive offset the fallback is strictly in the
future of the UTC now and the candidate is published; see the
counterexample.) -/
theorem c3_fallback_past (ev : EventIndex) (E : List (Option (List Char)))
    (now tzOff : Int) (fetch : List Char → Option (List Char))
    (hp : parseStart ev.start_at = none) (htz : tzOff ≤ 0) :
    (∀ rest : List EventIndex,
      publishNew now tzOff fetch (ev :: rest) = publishNew now tzOff fetch rest)
    ∧ processEvents [ev] E now tzOff fetch = some [] := by
  have hskip : (parseStart ev.start_at).getD (now + tzOff) ≤ now := by
    rw [hp]; exact (by omega : now + tzOff ≤ now)
  have hdrop : ∀ rest : List EventIndex,
      publishNew now tzOff fetch (ev :: rest) = publishNew now tzOff fetch rest := by
    intro rest
    rw [publishNew_cons, if_pos hskip]
  refine ⟨hdrop, ?_⟩
  show publishNew now tzOff fetch (computeNewEvents [ev] E) = some []
  rcases computeNewEvents_singleton ev E with h | h
  · rw [h]
    rfl
  · rw [h, hdrop]
    rfl

/-- Witness for C3: an unparsable timestamp under a zero offset is skipped. -/
theorem c3_fallback_past_witness :
    processEvents [evW3] [] 0 0 (fun _ => none) = some [] :=
  (c3_fallback_past evW3 [] 0 0 (fun _ => none) (by decide) (by decide)).2

/-- Counterexample for C3 as stated: with an unparsable timestamp and a
positive local UTC offset (here one hour), the fallback instant is strictly
after the current UTC instant, so the candidate is published rather than
always skipped. -/
theorem c3_fallback_cex :
    parseStart evC3x.start_at = none ∧
    (processEvents [evC3x] [] 0 3600 (fun _ => none)).map List.length = some 1 := by
  constructor
  · decide
  · decide

/-- C4 (amended): the sanitiser maps the reference input with one markdown
image to the expected output, and every input whose carriage-return-stripped
form contains no markdown image reference is returned with only carriage
returns removed. -/
theorem c4_image_strip :
    stripImages (removeCR (("Hello ![alt](http://x/y.png) world").data))
      = ("Hello  world").data
    ∧ ∀ s : List Char, hasImage (removeCR s) = false →
        stripImages (removeCR s) = removeCR s := by
  constructor
  · decide
  · intro s h
    exact stripImagesAux_no_image _ (removeCR s) h

/-- Witness for C4: an image-free input is unchanged. -/
theorem c4_image_strip_witness :
    stripImages (removeCR (("abc").data)) = removeCR (("abc").data) :=
  (c4_image_strip).2 (("abc").data) (by decide)

/-- Counterexample for C4 as stated: the raw input holds no markdown image
reference (the carriage return interrupts the pattern), yet the output is not
the input with carriage returns removed, because stripping the carriage
return first creates a match that is then deleted. -/
theorem c4_image_strip_cex :
    hasImage (("!\r()").data) = false ∧
    stripImages (removeCR (("!\r()").data)) ≠ removeCR (("!\r()").data) := by
  constructor
  · decide
  · decide

/-- C2 (amended): whenever the fixed prefix and suffix fit within 1000 bytes,
the formatter succeeds, the assembled description (prefix + truncated body +
suffix) has length at most 1000, the cut point actually used is a valid
character boundary of the sanitised body, and the total is exactly 1000 in the
overlong case provided the computed cut point itself falls on a character
boundary (with a multi-byte character straddling the cut point the total is
strictly below 1000; see the counterexample). -/
theorem c2_truncation (ev : EventIndex) (st : Int)
    (fetch : List Char → Option (List Char))
    (h : byteLen (descPre ev) + byteLen (descSuf ev) ≤ 1000) :
    ∃ p, formatEvent ev st fetch = some p ∧
      byteLen p.description ≤ 1000 ∧
      isCharBoundary (stripImages (removeCR ev.description))
        (findBoundary (stripImages (removeCR ev.description))
          (1000 - byteLen (descPre ev) - byteLen (descSuf ev))) = true ∧
      (1000 < byteLen (descPre ev) + byteLen (stripImages (removeCR ev.description))
          + byteLen (descSuf ev) →
        isCharBoundary (stripImages (removeCR ev.description))
          (1000 - byteLen (descPre ev) - byteLen (descSuf ev)) = true →
        byteLen p.description = 1000) := by
  have hc := rawCut_of_le ev h
  refine ⟨_, formatEvent_of_cut ev st fetch _ hc, ?_, findBoundary_isBoundary _ _, ?_⟩
  · show byteLen (descPre ev ++
      truncateList (stripImages (removeCR ev.description))
        (findBoundary (stripImages (removeCR ev.description))
          (1000 - byteLen (descPre ev) - byteLen (descSuf ev))) ++ descSuf ev) ≤ 1000
    rw [byteLen_append, byteLen_append]
    have h1 := byteLen_truncate_le (stripImages (removeCR ev.description))
      (findBoundary (stripImages (removeCR ev.description))
        (1000 - byteLen (descPre ev) - byteLen (descSuf ev)))
    have h2 := findBoundary_le (stripImages (removeCR ev.description))
      (1000 - byteLen (descPre ev) - byteLen (descSuf ev))
    omega
  · intro hsum hb
    show byteLen (descPre ev ++
      truncateList (stripImages (removeCR ev.description))
        (findBoundary (stripImages (removeCR ev.description))
          (1000 - byteLen (descPre ev) - byteLen (descSuf ev))) ++ descSuf ev) = 1000
    rw [byteLen_append, byteLen_append]
    rw [findBoundary_of_boundary _ _ hb]
    rw [byteLen_truncate_eq _ _ hb (by omega)]
    omega

/-- Witness for C2: a short candidate instantiating the amended truncation
theorem. -/
theorem c2_truncation_witness :
    ∃ p, formatEvent evW2 0 (fun _ => none) = some p ∧
      byteLen p.description ≤ 1000 ∧
      isCharBoundary (stripImages (removeCR evW2.description))
        (findBoundary (stripImages (removeCR evW2.description))
          (1000 - byteLen (descPre evW2) - byteLen (descSuf evW2))) = true ∧
      (1000 < byteLen (descPre evW2) + byteLen (stripImages (removeCR evW2.description))
          + byteLen (descSuf evW2) →
        isCharBoundary (stripImages (removeCR evW2.description))
          (1000 - byteLen (descPre evW2) - byteLen (descSuf evW2)) = true →
        byteLen p.description = 1000) :=
  c2_truncation evW2 0 (fun _ => none) (by decide)

set_option maxRecDepth 40000 in
/-- Counterexample for C2 as stated: for this candidate the component lengths
exceed 1000, yet the assembled description has 999 bytes, not exactly 1000,
because the computed cut point lands inside a two-byte character and the
boundary search backs off one byte. -/
theorem c2_truncation_cex :
    1000 < byteLen (descPre evC2x) + byteLen (stripImages (removeCR evC2x.description))
      + byteLen (descSuf evC2x) ∧
    (formatEvent evC2x 0 (fun _ => none)).map (fun p => byteLen p.description)
      = some 999 := by
  constructor
  · decide
  · decide

/-- C9: under the precondition that prefix plus suffix fit within 1000 bytes
the unchecked subtraction does not underflow, the formatter succeeds and the
boundary-search loop lands on a valid character boundary (byte index 0 always
being one, the loop terminates and the truncation cannot panic); without the
precondition the subtraction underflows, the formatter fails, and a run
reaching that candidate aborts with no publish for it. -/
theorem c9_cut_safety (ev : EventIndex) (st : Int)
    (fetch : List Char → Option (List Char)) :
    (byteLen (descPre ev) + byteLen (descSuf ev) ≤ 1000 →
      rawCut ev = some (1000 - byteLen (descPre ev) - byteLen (descSuf ev)) ∧
      (formatEvent ev st fetch).isSome = true ∧
      isCharBoundary (stripImages (removeCR ev.description))
        (findBoundary (stripImages (removeCR ev.description))
          (1000 - byteLen (descPre ev) - byteLen (descSuf ev))) = true)
    ∧ (∀ s : List Char, isCharBoundary s 0 = true)
    ∧ (1000 < byteLen (descPre ev) + byteLen (descSuf ev) →
      rawCut ev = none ∧ formatEvent ev st fetch = none ∧
      ∀ (E : List (Option (List Char))) (now tzOff t : Int),
        parseStart ev.start_at = some t → now < t →
        scanExisting E (markerChars ev.id) = false →
        processEvents [ev] E now tzOff fetch = none) := by
  refine ⟨?_, fun s => isCharBoundary_zero s, ?_⟩
  · intro h
    refine ⟨rawCut_of_le ev h, ?_, findBoundary_isBoundary _ _⟩
    rw [formatEvent_of_cut ev st fetch _ (rawCut_of_le ev h)]
    rfl
  · intro h
    have hn := rawCut_of_gt ev h
    refine ⟨hn, formatEvent_none ev st fetch hn, ?_⟩
    intro E now tzOff t hp hlt hscan
    show publishNew now tzOff fetch (computeNewEvents [ev] E) = none
    have hnew : computeNewEvents [ev] E = [ev] := by
      simp [computeNewEvents, List.filter_cons, hscan]
    rw [hnew]
    have hkeep : ¬ (parseStart ev.start_at).getD (now + tzOff) ≤ now := by
      rw [hp]; exact (by omega : ¬ t ≤ now)
    rw [publishNew_cons, if_neg hkeep, hp]
    rw [formatEvent_none ev _ fetch hn]

set_option maxRecDepth 40000 in
/-- Witness for C9: both branches at concrete candidates — a normal URL keeps
the formatter total, while a 956-character URL makes the prefix alone exceed
1000 bytes, so the subtraction underflows and the whole run aborts
unpublished. -/
theorem c9_cut_safety_witness :
    (formatEvent evW9s 0 (fun _ => none)).isSome = true ∧
    formatEvent evW9b 0 (fun _ => none) = none ∧
    processEvents [evW9b] [] 0 0 (fun _ => none) = none := by
  refine ⟨((c9_cut_safety evW9s 0 (fun _ => none)).1 (by decide)).2.1, ?_, ?_⟩
  · exact ((c9_cut_safety evW9b 0 (fun _ => none)).2.2 (by decide)).2.1
  · exact ((c9_cut_safety evW9b 0 (fun _ => none)).2.2 (by decide)).2.2
      [] 0 0 4102444800 (by decide) (by decide) (by decide)

/-- C6: the payloads a successful run publishes correspond one-to-one, in
order, with the accepted candidates: each payload is the formatter's output
for its own candidate and carries that candidate's id verbatim in the marker
`### id ###` appended at the end of its description, for every candidate and
every description body, truncated or not — truncation removes text only from
the body, never from the suffix carrying the marker. -/
theorem c6_marker_invariant (data : List EventIndex)
    (existing : List (Option (List Char))) (now tzOff : Int)
    (fetch : List Char → Option (List Char)) (out : List Payload)
    (h : processEvents data existing now tzOff fetch = some out) :
    List.Forall₂ (fun ev p =>
        formatEvent ev (effStart now tzOff ev) fetch = some p ∧
        ∃ t, p.description = t ++ markerChars ev.id)
      (acceptedEvents now tzOff (computeNewEvents data existing)) out := by
  have h2 := publishNew_forall2 now tzOff fetch _ out h
  exact h2.imp (fun ev p hf => ⟨hf, formatEvent_marker ev _ fetch p hf⟩)

/-- Witness for C6: a concrete run publishing one event, whose payload is
paired with its own candidate and carries that candidate's marker as a
suffix. -/
theorem c6_marker_invariant_witness :
    ∃ out, processEvents [evW6] [] 0 0 (fun _ => none) = some out ∧
      List.Forall₂ (fun ev p =>
          formatEvent ev (effStart 0 0 ev) (fun _ => none) = some p ∧
          ∃ t, p.description = t ++ markerChars ev.id)
        (acceptedEvents 0 0 (computeNewEvents [evW6] [])) out := by
  have hs : (processEvents [evW6] [] 0 0 (fun _ => none)).isSome = true := by decide
  obtain ⟨out, hout⟩ := Option.isSome_iff_exists.mp hs
  exact ⟨out, hout, c6_marker_invariant [evW6] [] 0 0 (fun _ => none) out hout⟩

/-- C8: for a candidate carrying a banner URL, the banner download outcome
never affects whether the creation payload is produced nor any field other
than the image: a failed download yields the very payload of a download that
was never attempted, and a successful download attaches the image. -/
theorem c8_banner_resilience (ev : EventIndex) (st : Int)
    (fetch : List Char → Option (List Char)) (url : List Char)
    (hb : ev.banner = some url) :
    ((formatEvent ev st fetch).map eraseImage
        = (formatEvent ev st (fun _ => none)).map eraseImage)
    ∧ ((formatEvent ev st fetch).isSome
        = (formatEvent ev st (fun _ => none)).isSome)
    ∧ (fetch url = none → formatEvent ev st fetch = formatEvent ev st (fun _ => none))
    ∧ ∀ p, formatEvent ev st fetch = some p → p.image = fetch url := by
  cases hc : rawCut ev with
  | none =>
    rw [formatEvent_none ev st fetch hc, formatEvent_none ev st (fun _ => none) hc]
    exact ⟨rfl, rfl, fun _ => rfl, fun p hp => absurd hp (by simp)⟩
  | some cut =>
    rw [formatEvent_of_cut ev st fetch cut hc,
      formatEvent_of_cut ev st (fun _ => none) cut hc]
    refine ⟨?_, rfl, ?_, ?_⟩
    · simp [eraseImage]
    · intro hf
      simp [hb, hf]
    · intro p hp
      cases Option.some.inj hp
      show ev.banner.bind fetch = fetch url
      rw [hb]
      rfl

/-- Witness for C8: a concrete candidate with a banner; a successful and a
failed download give the same payload apart from the image. -/
theorem c8_banner_resilience_witness :
    (formatEvent evW8 0 (fun u => some u)).map eraseImage
      = (formatEvent evW8 0 (fun _ => none)).map eraseImage :=
  (c8_banner_resilience evW8 0 (fun u => some u) (("/b").data) rfl).1

end TmpEvents
